import Mathlib

/-!
Verification of the MediMind chat client's streaming-response assembler.

The repository contains four variants of the `sendMessage` stream-consuming
loop:
  * `src/unnamed/part_002` — the enhanced multi-file variant (status banners,
    rate-limit rewriting, `hasError` flag, `break` on error);
  * `src/unnamed/part_000` — the enhanced variant without status handling;
  * `src/unnamed/part_001` — the minimal intake variant;
  * `src/medimind-main/frontend/src/App.original.jsx` — the original variant
    (no try/catch around `JSON.parse`).

The embedding models strings as `List Char` (the `TextDecoder` with
`stream: true` reassembles multi-byte UTF-8 sequences, so byte chunks are
faithfully represented as character chunks whose boundaries are character
boundaries).  `JSON.parse` is modelled by `jsonParse`, a recursive-descent
parser for the JSON subset used on the wire (strings, integral numbers,
booleans, null, arrays, objects; duplicate object keys keep the last value,
as in JavaScript).  React `setMessages` functional updates are modelled as
in-order application of the updater to the message list, which is their
semantics for a single event-loop task sequence.
-/

/-- Word list model of a string; `Str` is the carrier for all text. -/
abbrev Str := List Char

/-- Test whether `pre` is an initial segment of `l` (JS `String.startsWith`). -/
def leadsWith : Str → Str → Bool
  | _, [] => true
  | [], _ :: _ => false
  | c :: cs, d :: ds => c = d && leadsWith cs ds

/-- Test whether `needle` occurs contiguously inside `hay` (JS `String.includes`). -/
def containsSub (hay needle : Str) : Bool :=
  if leadsWith hay needle then true
  else
    match hay with
    | [] => false
    | _ :: cs => containsSub cs needle

/-- JS whitespace characters recognised by `String.trim` (the common ones). -/
def isWsChar (c : Char) : Bool :=
  c = ' ' || c = '\t' || c = '\n' || c = '\r' || c = '\x0b' || c = '\x0c'

/-- Drop leading whitespace. -/
def wsDropLeft (cs : Str) : Str := cs.dropWhile isWsChar

/-- JS `String.trim`: drop whitespace from both ends. -/
def jsTrim (cs : Str) : Str :=
  ((wsDropLeft cs).reverse.dropWhile isWsChar).reverse

/-- JS `String.split("\n")`: split into segments between newline characters.
An input without a newline yields one segment; a trailing newline yields a
trailing empty segment; the empty string yields one empty segment. -/
def splitNl : Str → List Str
  | [] => [[]]
  | c :: cs =>
    if c = '\n' then [] :: splitNl cs
    else
      match splitNl cs with
      | [] => [[c]]
      | l :: ls => (c :: l) :: ls

/-- JS `Array.join("\n")`: interleave segments with newline characters. -/
def joinNl : List Str → Str
  | [] => []
  | [l] => l
  | l :: ls => l ++ '\n' :: joinNl ls

/-- Model of a parsed JSON value (`JSON.parse` result).  Numbers are modelled
as integers, the only numeric shape the wire contract uses (`file_count`). -/
inductive JValue where
  | jnull : JValue
  | jbool : Bool → JValue
  | jnum : Int → JValue
  | jstr : Str → JValue
  | jarr : List JValue → JValue
  | jobj : List (Str × JValue) → JValue
deriving Repr

/-- JavaScript truthiness of a parsed JSON value. -/
def JValue.truthy : JValue → Bool
  | .jnull => false
  | .jbool b => b
  | .jnum n => n ≠ 0
  | .jstr s => s ≠ []
  | .jarr _ => true
  | .jobj _ => true

/-- Property access `obj[k]` on a parsed value: objects yield their field
(duplicate keys keep the last occurrence, as `JSON.parse` does); every other
value yields `undefined` (`none`). -/
def JValue.getField : JValue → Str → Option JValue
  | .jobj ms, k => ms.foldl (fun acc kv => if kv.1 = k then some kv.2 else acc) none
  | _, _ => none

/-- JS string coercion of a parsed value, used where the code interpolates or
assigns a value into text.  Array display is simplified to a constant; on the
wire contract the coerced fields are always strings, so the non-string arms
are unreachable in the scenarios of interest. -/
def JValue.display : JValue → Str
  | .jnull => "null".toList
  | .jbool true => "true".toList
  | .jbool false => "false".toList
  | .jnum n => (toString n).toList
  | .jstr s => s
  | .jarr _ => "[array]".toList
  | .jobj _ => "[object Object]".toList

/-- Skip JSON whitespace. -/
def skipWs (cs : Str) : Str :=
  cs.dropWhile (fun c => c = ' ' || c = '\t' || c = '\n' || c = '\r')

/-- Parse the body of a JSON string literal after the opening quote; returns
the decoded contents and the remainder after the closing quote. -/
def parseStringBody : Str → Option (Str × Str)
  | [] => none
  | '"' :: rest => some ([], rest)
  | '\\' :: e :: rest =>
    (match e with
     | '"' => some '"'
     | '\\' => some '\\'
     | '/' => some '/'
     | 'n' => some '\n'
     | 't' => some '\t'
     | 'r' => some '\r'
     | 'b' => some '\x08'
     | 'f' => some '\x0c'
     | _ => none).bind fun c =>
      (parseStringBody rest).map fun (p : Str × Str) => (c :: p.1, p.2)
  | c :: rest =>
    if c.toNat < 0x20 then none
    else (parseStringBody rest).map fun (p : Str × Str) => (c :: p.1, p.2)

/-- Parse a nonempty run of decimal digits into a natural number. -/
def parseDigits (cs : Str) : Option (Nat × Str) :=
  let digs := cs.takeWhile (fun c => '0' ≤ c && c ≤ '9')
  if digs = [] then none
  else some (digs.foldl (fun n c => 10 * n + (c.toNat - '0'.toNat)) 0,
             cs.dropWhile (fun c => '0' ≤ c && c ≤ '9'))

/-- Parse a JSON number (integral subset: optional minus, digits). -/
def parseNumber (cs : Str) : Option (JValue × Str) :=
  match cs with
  | '-' :: rest => (parseDigits rest).map fun p => (.jnum (-(p.1 : Int)), p.2)
  | _ => (parseDigits cs).map fun p => (.jnum (p.1 : Int), p.2)

mutual

/-- Fuelled recursive-descent parser for one JSON value. -/
def parseVal : Nat → Str → Option (JValue × Str)
  | 0, _ => none
  | fuel + 1, cs =>
    match skipWs cs with
    | '"' :: rest => (parseStringBody rest).map fun p => (.jstr p.1, p.2)
    | '{' :: rest =>
      (match skipWs rest with
       | '}' :: rest2 => some (.jobj [], rest2)
       | _ => (parseMembers fuel rest).map fun p => (.jobj p.1, p.2))
    | '[' :: rest =>
      (match skipWs rest with
       | ']' :: rest2 => some (.jarr [], rest2)
       | _ => (parseElems fuel rest).map fun p => (.jarr p.1, p.2))
    | 't' :: 'r' :: 'u' :: 'e' :: rest => some (.jbool true, rest)
    | 'f' :: 'a' :: 'l' :: 's' :: 'e' :: rest => some (.jbool false, rest)
    | 'n' :: 'u' :: 'l' :: 'l' :: rest => some (.jnull, rest)
    | cs' => parseNumber cs'

/-- Parse one-or-more comma-separated object members up to the closing brace. -/
def parseMembers : Nat → Str → Option (List (Str × JValue) × Str)
  | 0, _ => none
  | fuel + 1, cs =>
    match skipWs cs with
    | '"' :: rest =>
      (parseStringBody rest).bind fun kp =>
        match skipWs kp.2 with
        | ':' :: rest2 =>
          (parseVal fuel rest2).bind fun vp =>
            (match skipWs vp.2 with
             | ',' :: rest3 =>
               (parseMembers fuel rest3).map fun mp => ((kp.1, vp.1) :: mp.1, mp.2)
             | '}' :: rest3 => some ([(kp.1, vp.1)], rest3)
             | _ => none)
        | _ => none
    | _ => none

/-- Parse one-or-more comma-separated array elements up to the closing bracket. -/
def parseElems : Nat → Str → Option (List JValue × Str)
  | 0, _ => none
  | fuel + 1, cs =>
    (parseVal fuel cs).bind fun vp =>
      match skipWs vp.2 with
      | ',' :: rest => (parseElems fuel rest).map fun ep => (vp.1 :: ep.1, ep.2)
      | ']' :: rest => some ([vp.1], rest)
      | _ => none

end

/-- Model of `JSON.parse`: parse one value and require only trailing
whitespace to remain. -/
def jsonParse (cs : Str) : Option JValue :=
  match parseVal (cs.length + 1) cs with
  | some (v, rest) => if skipWs rest = [] then some v else none
  | none => none

/-- One conversation entry.  In the JavaScript source the user entry carries
its text in `content` and assistant entries in `answer`; the single record
stores both shapes, with absent optional fields as `none` (the placeholder
and error replacements carry no `filesAnalyzed`/`fileCount`). -/
structure Message where
  role : Str
  answer : Str
  streaming : Bool
  filesAnalyzed : Option (List Str)
  fileCount : Option Int
deriving DecidableEq, Repr

/-- State threaded through the `part_002` stream-consuming loop: the
conversation, the `loading` flag, and the `hasError` flag. -/
structure StreamState where
  messages : List Message
  loading : Bool
  hasError : Bool
deriving DecidableEq, Repr

/-- `updated[updated.length - 1] = m` on a JS array: replaces the last entry;
on an empty array the assignment targets index `-1` and the array's entries
are unchanged. -/
def setLast (msgs : List Message) (m : Message) : List Message :=
  match msgs.getLast? with
  | none => msgs
  | some _ => msgs.dropLast ++ [m]

/-- Read-modify-write of the last entry, used by the guarded handlers
(`if (updated.length > 0)`). -/
def updateLast (msgs : List Message) (f : Message → Message) : List Message :=
  match msgs.getLast? with
  | none => msgs
  | some m => msgs.dropLast ++ [f m]

/-- Truthiness of `parsed.k` for a parsed payload (missing field is
`undefined`, hence falsy). -/
def fieldTruthy (p : JValue) (k : Str) : Bool :=
  match p.getField k with
  | some v => v.truthy
  | none => false

/-- Rate-limit rewriting of `part_002` (lines 101-110): error strings
containing a rate-limit indicator are replaced by a fixed user-facing
message; the `Error code: 429` arm is unreachable because the first test
already matches `429`. -/
def rewriteError (m : Str) : Str :=
  if containsSub m "429".toList || containsSub m "Rate limit".toList
      || containsSub m "rate limit".toList then
    "⚠️ Rate limit reached. The API has exceeded its token limit. Please wait 30-60 seconds and try again.".toList
  else if containsSub m "Error code: 429".toList then
    "⚠️ Rate limit reached. Please wait 30-60 seconds and try again.".toList
  else m

/-- Display text stored for an error value: strings go through the
rate-limit rewriting (the `typeof parsed.error === 'string'` guard), any
other value is assigned unchanged and later coerced for display. -/
def errorText : JValue → Str
  | .jstr m => rewriteError m
  | v => v.display

/-- `part_002` error handler (lines 99-123): set `hasError`, replace the
last message by a fresh assistant entry carrying the (possibly rewritten)
error text with no file metadata, and clear `loading`.  The subsequent
`break` is modelled at `processLines`. -/
def applyError (err : JValue) (s : StreamState) : StreamState :=
  { messages := setLast s.messages
      { role := "assistant".toList, answer := errorText err, streaming := false,
        filesAnalyzed := none, fileCount := none },
    loading := false, hasError := true }

/-- The reserved marker by which `part_002` recognises its chunk-progress
line (line 143). -/
def chunkMarker : Str := "📝 Summarizing chunk".toList

/-- String value of `parsed.message || ''`. -/
def statusMsgOf (p : JValue) : Str :=
  match p.getField "message".toList with
  | some v => if v.truthy then v.display else []
  | none => []

/-- `part_002` status handler (lines 126-163), applied when `parsed.status`
is truthy: phase-specific banner update of the last message, then
`streaming := true`.  Non-string phases match none of the `===` tests. -/
def applyStatus (p : JValue) (s : StreamState) : StreamState :=
  { s with messages := updateLast s.messages (fun last =>
      let statusMsg := statusMsgOf p
      let currentAnswer := last.answer
      let last :=
        match p.getField "status".toList with
        | some (.jstr ph) =>
          if ph = "chunking".toList then
            { last with answer := "📄 ".toList ++ statusMsg ++ ['\n'] }
          else if ph = "processing".toList then
            { last with answer :=
                "📄 Document is large. Processing in chunks...\n🔄 ".toList
                  ++ statusMsg ++ ['\n'] }
          else if ph = "chunk".toList then
            let progressMsg := "📝 ".toList ++ statusMsg
            if ¬ containsSub currentAnswer chunkMarker then
              { last with answer := currentAnswer ++ progressMsg ++ ['\n'] }
            else
              let lines := splitNl currentAnswer
              let newLines := lines.filter (fun l => !(containsSub l chunkMarker))
              { last with answer := joinNl (newLines ++ [progressMsg]) ++ ['\n'] }
          else if ph = "combining".toList then
            { last with answer := currentAnswer ++ "🔗 ".toList ++ statusMsg ++ ['\n'] }
          else if ph = "finalizing".toList then
            { last with answer := currentAnswer ++ "✨ ".toList ++ statusMsg ++ ['\n'] }
          else if ph = "error".toList then
            { last with answer := currentAnswer ++ "⚠️ ".toList ++ statusMsg ++ ['\n'] }
          else last
        | _ => last
      { last with streaming := true }) }

/-- The banner-detection test of the `part_002` token handler (line 172). -/
def hasBanner (cur : Str) : Bool :=
  containsSub cur "📄".toList || containsSub cur "🔄".toList
    || containsSub cur "📝".toList

/-- Text of a token value (strings verbatim; other values coerced). -/
def tokText : JValue → Str
  | .jstr t => t
  | v => v.display

/-- `part_002` token handler (lines 166-187), applied when `parsed.token` is
truthy: if the accumulated answer shows status banners and does not already
contain the token's trimmed content, replace the banners by the token;
otherwise append; then `streaming := true`. -/
def applyToken (tok : JValue) (s : StreamState) : StreamState :=
  { s with messages := updateLast s.messages (fun last =>
      let t := tokText tok
      let currentAnswer := last.answer
      let last :=
        if hasBanner currentAnswer then
          if ¬ containsSub currentAnswer (jsTrim t) then
            { last with answer := t }
          else
            { last with answer := currentAnswer ++ t }
        else
          { last with answer := currentAnswer ++ t }
      { last with streaming := true }) }

/-- `parsed.final.answer` as stored display text (`undefined` renders
empty). -/
def finAnswer (fin : JValue) : Str :=
  match fin.getField "answer".toList with
  | some (.jstr a) => a
  | some v => v.display
  | none => []

/-- `parsed.final.files_analyzed || []`: an array's string elements, else
the empty list (the wire contract sends an array of strings or omits the
field). -/
def finFiles (fin : JValue) : List Str :=
  match fin.getField "files_analyzed".toList with
  | some (.jarr xs) => xs.map tokText
  | _ => []

/-- `parsed.final.file_count || 0` for the contract's integral counts. -/
def finCount (fin : JValue) : Int :=
  match fin.getField "file_count".toList with
  | some (.jnum n) => if n = 0 then 0 else n
  | _ => 0

/-- `part_002` final handler (lines 190-203), applied when `parsed.final` is
truthy: spread-overwrite of the last message's answer, file metadata and
`streaming := false`, then `setLoading(false)`. -/
def applyFinal (fin : JValue) (s : StreamState) : StreamState :=
  { s with
    messages := setLast s.messages
      (match s.messages.getLast? with
       | some last =>
         { last with answer := finAnswer fin,
                     filesAnalyzed := some (finFiles fin),
                     fileCount := some (finCount fin), streaming := false }
       | none =>
         { role := [], answer := finAnswer fin, streaming := false,
           filesAnalyzed := some (finFiles fin), fileCount := some (finCount fin) }),
    loading := false }

/-- The end-of-stream sentinel payload. -/
def doneSentinel : Str := "[DONE]".toList

/-- The event-line marker. -/
def dataMarker : Str := "data:".toList

/-- Payload of an event line: the guarded `line.replace("data:", "")` removes
the leading marker (the guard ensures the first occurrence is at position 0),
then `.trim()`. -/
def payloadOf (l : Str) : Str := jsTrim (l.drop 5)

/-- `part_002` per-chunk line loop (lines 84-209): skip non-event lines,
handle empty/`[DONE]` payloads by clearing `loading` unless an error was
seen, skip unparseable payloads, and otherwise run the error (with `break`),
status, token and final handlers in source order. -/
def processLines : List Str → StreamState → StreamState
  | [], s => s
  | l :: rest, s =>
    if ¬ leadsWith l dataMarker then processLines rest s
    else
      let payload := payloadOf l
      if payload = [] ∨ payload = doneSentinel then
        processLines rest (if s.hasError then s else { s with loading := false })
      else
        match jsonParse payload with
        | none => processLines rest s
        | some parsed =>
          if fieldTruthy parsed "error".toList then
            applyError ((parsed.getField "error".toList).getD .jnull) s
          else
            let s1 := if fieldTruthy parsed "status".toList then applyStatus parsed s else s
            let s2 := if fieldTruthy parsed "token".toList then
                        applyToken ((parsed.getField "token".toList).getD .jnull) s1
                      else s1
            let s3 := if fieldTruthy parsed "final".toList then
                        applyFinal ((parsed.getField "final".toList).getD .jnull) s2
                      else s2
            processLines rest s3

/-- `part_002` read loop (lines 72-210): split each decoded chunk on
newlines and process its lines; at end of stream clear `loading` unless an
error was seen.  The `break` issued by the error handler exits only the
inner line loop, so later chunks are still processed. -/
def processChunks : List Str → StreamState → StreamState
  | [], s => if s.hasError then s else { s with loading := false }
  | ch :: chs, s => processChunks chs (processLines (splitNl ch) s)

/-- The placeholder assistant entry appended on submit (`part_002`
lines 49-53). -/
def placeholderMsg : Message :=
  { role := "assistant".toList, answer := [], streaming := true,
    filesAnalyzed := none, fileCount := none }

/-- Controller state right after submit: user entry, placeholder, `loading`
set, no error seen. -/
def initState (q : Str) : StreamState :=
  { messages := [{ role := "user".toList, answer := q, streaming := false,
                   filesAnalyzed := none, fileCount := none },
                 placeholderMsg],
    loading := true, hasError := false }

/-- `part_002` transport-failure catch handler (lines 211-222): replace the
last message in place by the fixed connectivity text and clear `loading`. -/
def connectionErrorText : Str :=
  "Error connecting to backend. Make sure the server is running.".toList

/-- The catch handler of `part_002`. -/
def catchHandler (s : StreamState) : StreamState :=
  { s with
    messages := setLast s.messages
      { role := "assistant".toList, answer := connectionErrorText,
        streaming := false, filesAnalyzed := none, fileCount := none },
    loading := false }

/-- State of the `part_000` loop (no `hasError` flag). -/
structure BasicState where
  messages : List Message
  loading : Bool
deriving DecidableEq, Repr

/-- `part_000` per-chunk line loop (lines 70-123): token append (without
touching `streaming`), final overwrite, error replacement prefixed with
`Error: ` (no rate-limit rewriting, no `break`), handlers in source order
token, final, error. -/
def processLinesBasic : List Str → BasicState → BasicState
  | [], s => s
  | l :: rest, s =>
    if ¬ leadsWith l dataMarker then processLinesBasic rest s
    else
      let payload := payloadOf l
      if payload = [] ∨ payload = doneSentinel then
        processLinesBasic rest { s with loading := false }
      else
        match jsonParse payload with
        | none => processLinesBasic rest s
        | some parsed =>
          let s1 := if fieldTruthy parsed "token".toList then
                      { s with messages := updateLast s.messages (fun last =>
                          { last with answer :=
                              last.answer ++ tokText ((parsed.getField "token".toList).getD .jnull) }) }
                    else s
          let s2 := if fieldTruthy parsed "final".toList then
                      let fin := (parsed.getField "final".toList).getD .jnull
                      let newLast :=
                        match s1.messages.getLast? with
                        | some last =>
                          { last with answer := finAnswer fin,
                                      filesAnalyzed := some (finFiles fin),
                                      fileCount := some (finCount fin), streaming := false }
                        | none =>
                          { role := [], answer := finAnswer fin, streaming := false,
                            filesAnalyzed := some (finFiles fin),
                            fileCount := some (finCount fin) }
                      { s1 with messages := setLast s1.messages newLast }
                    else s1
          let s3 := if fieldTruthy parsed "error".toList then
                      { messages := setLast s2.messages
                          { role := "assistant".toList,
                            answer := "Error: ".toList
                              ++ ((parsed.getField "error".toList).getD .jnull).display,
                            streaming := false, filesAnalyzed := none, fileCount := none },
                        loading := false }
                    else s2
          processLinesBasic rest s3

/-- `part_000` read loop (lines 63-124): `if (done) break;` leaves `loading`
untouched at end of stream. -/
def processChunksBasic : List Str → BasicState → BasicState
  | [], s => s
  | ch :: chs, s => processChunksBasic chs (processLinesBasic (splitNl ch) s)

/-- Message shape of the minimal `part_001` variant (text in `content`). -/
structure MinimalMessage where
  role : Str
  content : Str
  streaming : Bool
deriving DecidableEq, Repr

/-- `part_001` transport-failure catch handler (lines 89-99): append a new
error message; the placeholder at the tail is left untouched. -/
def minimalCatch (msgs : List MinimalMessage) : List MinimalMessage :=
  msgs ++ [{ role := "assistant".toList,
             content := "Error connecting to backend.".toList, streaming := false }]

/-- Message shape of the original variant (`App.original.jsx`). -/
structure OrigMessage where
  role : Str
  answer : Str
  plan : Str
  context : Str
  streaming : Bool
deriving DecidableEq, Repr

/-- State of the original variant's loop. -/
structure OrigState where
  messages : List OrigMessage
  loading : Bool
deriving DecidableEq, Repr

/-- Replace the last entry of the original variant's conversation. -/
def setLastOrig (msgs : List OrigMessage) (m : OrigMessage) : List OrigMessage :=
  match msgs.getLast? with
  | none => msgs
  | some _ => msgs.dropLast ++ [m]

/-- String field of a final object (`plan`/`context`) with `|| ""`. -/
def finStrField (fin : JValue) (k : Str) : Str :=
  match fin.getField k with
  | some v => if v.truthy then v.display else []
  | none => []

/-- `App.original.jsx` per-chunk line loop (lines 52-86): `JSON.parse` is not
guarded, so a parse failure throws — modelled by `Except.error` carrying the
state at the moment of the throw, which propagates to the outer catch. -/
def processLinesOrig : List Str → OrigState → Except OrigState OrigState
  | [], s => .ok s
  | l :: rest, s =>
    if ¬ leadsWith l dataMarker then processLinesOrig rest s
    else
      let payload := payloadOf l
      if payload = [] ∨ payload = doneSentinel then
        processLinesOrig rest { s with loading := false }
      else
        match jsonParse payload with
        | none => .error s
        | some parsed =>
          let s1 := if fieldTruthy parsed "token".toList then
                      { s with messages :=
                          (match s.messages.getLast? with
                           | none => s.messages
                           | some last => s.messages.dropLast
                               ++ [{ last with answer := last.answer
                                      ++ tokText ((parsed.getField "token".toList).getD .jnull) }]) }
                    else s
          let s2 := if fieldTruthy parsed "final".toList then
                      let fin := (parsed.getField "final".toList).getD .jnull
                      let newLast :=
                        match s1.messages.getLast? with
                        | some last =>
                          { last with answer := finAnswer fin,
                                      plan := finStrField fin "plan".toList,
                                      context := finStrField fin "context".toList,
                                      streaming := false }
                        | none =>
                          { role := [], answer := finAnswer fin,
                            plan := finStrField fin "plan".toList,
                            context := finStrField fin "context".toList,
                            streaming := false }
                      { s1 with messages := setLastOrig s1.messages newLast }
                    else s1
          processLinesOrig rest s2

/-- `App.original.jsx` read loop (lines 45-87); a thrown parse error aborts
the remaining chunks. -/
def processChunksOrig : List Str → OrigState → Except OrigState OrigState
  | [], s => .ok s
  | ch :: chs, s =>
    match processLinesOrig (splitNl ch) s with
    | .ok s' => processChunksOrig chs s'
    | .error s' => .error s'

/-- `App.original.jsx` whole-stream run (lines 45-101): normal completion
leaves the state as-is (`if (done) break;`); a thrown parse error reaches the
outer catch, which replaces the last message with the connectivity text and
clears `loading`. -/
def runOrig (chunks : List Str) (s : OrigState) : OrigState :=
  match processChunksOrig chunks s with
  | .ok s' => s'
  | .error s' =>
    { messages := setLastOrig s'.messages
        { role := "assistant".toList, answer := "Error connecting to backend.".toList,
          plan := [], context := [], streaming := false },
      loading := false }

/-- Processing of one Token event dispatched alone: the handler runs only
when `parsed.token` is truthy, i.e. when the fragment is nonempty. -/
def tokenStep (t : Str) (s : StreamState) : StreamState :=
  if t = [] then s else applyToken (.jstr t) s

/-- The payload object of a `Final` event carrying answer `X`,
`files_analyzed` `F` and `file_count` `N`. -/
def mkFinal (X : Str) (F : List Str) (N : Int) : JValue :=
  .jobj [("answer".toList, .jstr X),
         ("files_analyzed".toList, .jarr (F.map .jstr)),
         ("file_count".toList, .jnum N)]

/-- The payload object of a `Status` event with phase `ph` and message `m`. -/
def mkStatus (ph m : Str) : JValue :=
  .jobj [("status".toList, .jstr ph), ("message".toList, .jstr m)]

theorem setLast_length (msgs : List Message) (m : Message) :
    (setLast msgs m).length = msgs.length := by
  unfold setLast
  cases h : msgs.getLast? with
  | none => rfl
  | some x =>
    have hne : msgs ≠ [] := by
      intro he; rw [he] at h; simp at h
    have hp : 0 < msgs.length := List.length_pos.mpr hne
    simp [List.length_dropLast, List.length_append]
    omega

theorem updateLast_length (msgs : List Message) (f : Message → Message) :
    (updateLast msgs f).length = msgs.length := by
  unfold updateLast
  cases h : msgs.getLast? with
  | none => rfl
  | some x =>
    have hne : msgs ≠ [] := by
      intro he; rw [he] at h; simp at h
    have hp : 0 < msgs.length := List.length_pos.mpr hne
    simp [List.length_dropLast, List.length_append]
    omega

theorem setLast_getLast (msgs : List Message) (m : Message) (h : msgs ≠ []) :
    (setLast msgs m).getLast? = some m := by
  unfold setLast
  cases hg : msgs.getLast? with
  | none => exact absurd (List.getLast?_eq_none_iff.mp hg) h
  | some x => simp [List.getLast?_concat]

theorem updateLast_getLast (msgs : List Message) (f : Message → Message) (x : Message)
    (h : msgs.getLast? = some x) :
    (updateLast msgs f).getLast? = some (f x) := by
  unfold updateLast
  rw [h]
  simp [List.getLast?_concat]

theorem tokenStep_length (t : Str) (s : StreamState) :
    (tokenStep t s).messages.length = s.messages.length := by
  unfold tokenStep applyToken
  split
  · rfl
  · exact updateLast_length ..

theorem foldl_tokenStep_length (ts : List Str) (s : StreamState) :
    (ts.foldl (fun s t => tokenStep t s) s).messages.length = s.messages.length := by
  induction ts generalizing s with
  | nil => rfl
  | cons t ts ih => rw [List.foldl_cons, ih, tokenStep_length]

theorem finAnswer_mkFinal (X : Str) (F : List Str) (N : Int) :
    finAnswer (mkFinal X F N) = X := rfl

theorem finFiles_mkFinal (X : Str) (F : List Str) (N : Int) :
    finFiles (mkFinal X F N) = F := by
  show (F.map JValue.jstr).map tokText = F
  rw [List.map_map]
  exact List.map_id'' (fun f => rfl) F

theorem finCount_mkFinal (X : Str) (F : List Str) (N : Int) :
    finCount (mkFinal X F N) = N := by
  show (if N = 0 then 0 else N) = N
  split <;> omega

/-- Claim C3: for every sequence of Token events followed by a Final event
with answer `X`, `files_analyzed` `F` and `file_count` `N`, processing the
Final event overwrites the in-progress message's text with `X` verbatim
(discarding all accumulated token and status-banner text), sets
`filesAnalyzed` to `F` and `fileCount` to `N`, and sets `streaming` to
false, regardless of what tokens were accumulated before. -/
theorem c3_final_overwrites (s : StreamState) (ts : List Str) (X : Str)
    (F : List Str) (N : Int) (h : s.messages ≠ []) :
    let s' := applyFinal (mkFinal X F N) (ts.foldl (fun s t => tokenStep t s) s)
    (s'.messages.getLast?).map Message.answer = some X
    ∧ (s'.messages.getLast?).map Message.filesAnalyzed = some (some F)
    ∧ (s'.messages.getLast?).map Message.fileCount = some (some N)
    ∧ (s'.messages.getLast?).map Message.streaming = some false := by
  intro s'
  have hne : (ts.foldl (fun s t => tokenStep t s) s).messages ≠ [] := by
    intro he
    have := foldl_tokenStep_length ts s
    rw [he] at this
    exact h (List.eq_nil_of_length_eq_zero this.symm)
  have hlast : ∃ x, (ts.foldl (fun s t => tokenStep t s) s).messages.getLast? = some x := by
    cases hx : (ts.foldl (fun s t => tokenStep t s) s).messages.getLast? with
    | none => exact absurd (List.getLast?_eq_none_iff.mp hx) hne
    | some x => exact ⟨x, rfl⟩
  obtain ⟨x, hx⟩ := hlast
  have : s'.messages.getLast? =
      some { x with answer := finAnswer (mkFinal X F N),
                    filesAnalyzed := some (finFiles (mkFinal X F N)),
                    fileCount := some (finCount (mkFinal X F N)), streaming := false } := by
    show ((applyFinal (mkFinal X F N) _).messages.getLast?) = _
    unfold applyFinal
    simp only [hx]
    exact setLast_getLast _ _ hne
  rw [this, finAnswer_mkFinal, finFiles_mkFinal, finCount_mkFinal]
  exact ⟨rfl, rfl, rfl, rfl⟩

/-- Witness for C3 at a concrete stream: two tokens then a final with
answer `X`, one analysed file and count 1. -/
theorem c3_witness :
    (initState "q".toList).messages ≠ []
    ∧ ((applyFinal (mkFinal "X".toList ["a.txt".toList] 1)
          ((["Result: ".toList, "normal.".toList]).foldl (fun s t => tokenStep t s)
            (initState "q".toList))).messages.getLast?).map Message.answer
        = some "X".toList :=
  ⟨by decide, (c3_final_overwrites (initState "q".toList)
      ["Result: ".toList, "normal.".toList] "X".toList ["a.txt".toList] 1 (by decide)).1⟩

/-- The status-banner replacement condition of the token handler: the
accumulated text shows banner markers and does not already contain the
token's trimmed content (`part_002` lines 172-174). -/
def replCond (cur t : Str) : Bool :=
  hasBanner cur && !(containsSub cur (jsTrim t))

/-- No fragment of `ts` triggers the replacement condition when applied
in order starting from accumulated text `a`. -/
def noRepl : Str → List Str → Bool
  | _, [] => true
  | a, t :: ts => !(replCond a t) && noRepl (a ++ t) ts

theorem applyToken_append (s : StreamState) (x : Message) (t : Str)
    (hx : s.messages.getLast? = some x) (hc : replCond x.answer t = false) :
    (applyToken (.jstr t) s).messages.getLast?
      = some { x with answer := x.answer ++ t, streaming := true } := by
  unfold applyToken
  rw [updateLast_getLast _ _ _ hx]
  congr 1
  simp only [tokText]
  have hc' : hasBanner x.answer = true → containsSub x.answer (jsTrim t) = true := by
    simpa [replCond] using hc
  by_cases hb : hasBanner x.answer
  · simp [hb, hc' hb]
  · simp [hb]

/-- Claim C7: a sequence of Token events with fragments `t1…tn`, none of
which triggers the status-banner replacement condition against the text
accumulated so far, appends each fragment in arrival order: the final
accumulated text is the initial text followed by the concatenation
`t1 ++ … ++ tn`. -/
theorem c7_token_append (s : StreamState) (ts : List Str) (x : Message)
    (hx : s.messages.getLast? = some x) (hr : noRepl x.answer ts = true) :
    ((ts.foldl (fun s t => tokenStep t s) s).messages.getLast?).map Message.answer
      = some (x.answer ++ ts.flatten) := by
  induction ts generalizing s x with
  | nil => simp [hx]
  | cons t ts ih =>
    have hr' : replCond x.answer t = false ∧ noRepl (x.answer ++ t) ts = true := by
      simpa [noRepl] using hr
    have hr1 := hr'.1
    have hr2 := hr'.2
    rw [List.foldl_cons]
    by_cases ht : t = []
    · subst ht
      rw [show tokenStep [] s = s from rfl]
      have := ih s x hx (by simpa using hr2)
      simpa using this
    · have hstep : (tokenStep t s).messages.getLast?
          = some { x with answer := x.answer ++ t, streaming := true } := by
        unfold tokenStep
        rw [if_neg ht]
        exact applyToken_append s x t hx hr1
      have := ih (tokenStep t s) _ hstep (by simpa using hr2)
      simpa using this

/-- Witness for C7: two plain fragments, no banner in sight. -/
theorem c7_witness :
    (initState "q".toList).messages.getLast? = some placeholderMsg
    ∧ noRepl placeholderMsg.answer ["hi".toList, " there".toList] = true
    ∧ ((["hi".toList, " there".toList].foldl (fun s t => tokenStep t s)
          (initState "q".toList)).messages.getLast?).map Message.answer
        = some (placeholderMsg.answer ++ ["hi".toList, " there".toList].flatten) :=
  ⟨by decide, by decide,
   c7_token_append (initState "q".toList) ["hi".toList, " there".toList]
     placeholderMsg (by decide) (by decide)⟩

/-- Claim C10: a successfully parsed payload whose sole recognised field is
falsy — a `token` equal to the empty string, or an `error` equal to the
empty string — is a complete no-op in both enhanced variants: the
empty-string token appends nothing, and the empty-string error does not
terminate the message or clear `loading`, because each handler branch is
guarded by the truthiness of the field value. -/
theorem c10_falsy_fields (s : StreamState) (b : BasicState) :
    processLines ["data: \x7b\"token\":\"\"\x7d".toList] s = s
    ∧ processLines ["data: \x7b\"error\":\"\"\x7d".toList] s = s
    ∧ processLinesBasic ["data: \x7b\"token\":\"\"\x7d".toList] b = b
    ∧ processLinesBasic ["data: \x7b\"error\":\"\"\x7d".toList] b = b :=
  ⟨rfl, rfl, rfl, rfl⟩

/-- Counterexample to Claim C5: an event stream that closes after zero
bytes leaves the placeholder with `streaming = true`, not `false` — the
done branch and the `[DONE]` handler only clear `loading` and never touch
the message. -/
theorem c5_counterexample :
    ((processChunks [] (initState "q".toList)).messages.getLast?).map Message.streaming
        = some true
    ∧ ((processChunks [] (initState "q".toList)).messages.getLast?).map Message.answer
        = some []
    ∧ (processChunks [] (initState "q".toList)).loading = false
    ∧ ((processChunks ["data: [DONE]\n".toList] (initState "q".toList)).messages.getLast?).map
        Message.streaming = some true := by
  refine ⟨rfl, rfl, rfl, rfl⟩

/-- Claim C5 as amended: when no error has been seen, a `Done` event (empty
payload or the `[DONE]` sentinel) and stream closure clear the `loading`
flag but leave the in-progress message entirely unchanged — in particular
its `streaming` field stays `true` and its text stays as it was; only
`Final`, `Error` and the transport catch handler clear `streaming`. -/
theorem c5_amended (s : StreamState) (h : s.hasError = false) :
    processChunks [] s = { s with loading := false }
    ∧ processLines ["data: [DONE]".toList] s = { s with loading := false }
    ∧ processLines ["data:".toList] s = { s with loading := false }
    ∧ (processChunks [] s).messages = s.messages
    ∧ (processLines ["data: [DONE]".toList] s).messages = s.messages := by
  have h1 : processChunks [] s = { s with loading := false } := by
    unfold processChunks
    rw [h]
    simp
  have h2 : processLines ["data: [DONE]".toList] s = { s with loading := false } := by
    show processLines [] (if s.hasError then s else { s with loading := false }) = _
    rw [h]
    rfl
  have h3 : processLines ["data:".toList] s = { s with loading := false } := by
    show processLines [] (if s.hasError then s else { s with loading := false }) = _
    rw [h]
    rfl
  exact ⟨h1, h2, h3, by rw [h1], by rw [h2]⟩

/-- Witness for C5 as amended, at the initial controller state. -/
theorem c5_witness :
    (initState "q".toList).hasError = false
    ∧ processChunks [] (initState "q".toList)
        = { initState "q".toList with loading := false } :=
  ⟨by decide, (c5_amended (initState "q".toList) (by decide)).1⟩

/-- Counterexample to Claim C9: in the minimal variant (`part_001`), the
transport-failure catch handler appends a new error message instead of
replacing the placeholder in place, and the placeholder is left with
`streaming = true`. -/
theorem c9_counterexample :
    let msgs := [{ role := "user".toList, content := "q".toList,
                   streaming := false : MinimalMessage },
                 { role := "assistant".toList, content := [],
                   streaming := true : MinimalMessage }]
    (minimalCatch msgs).length = msgs.length + 1
    ∧ ((minimalCatch msgs)[1]?).map MinimalMessage.streaming = some true := by
  exact ⟨rfl, rfl⟩

/-- Claim C9 as amended: in the enhanced variant (`part_002`), the transport
catch handler replaces the in-progress message in place with the fixed
connectivity text and `streaming = false`, clears `loading`, preserves the
conversation length, and its effect on the conversation coincides with
applying an `Error` event carrying the connectivity text through the normal
assembler transition; the minimal variant (`part_001`) instead appends a new
message and leaves the placeholder streaming. -/
theorem c9_amended (s : StreamState) (h : s.messages ≠ []) :
    (catchHandler s).messages = (applyError (.jstr connectionErrorText) s).messages
    ∧ (catchHandler s).loading = false
    ∧ (catchHandler s).messages.length = s.messages.length
    ∧ ((catchHandler s).messages.getLast?).map Message.streaming = some false
    ∧ ((catchHandler s).messages.getLast?).map Message.answer = some connectionErrorText := by
  have hrw : errorText (.jstr connectionErrorText) = connectionErrorText := by decide
  have hmsg : (catchHandler s).messages
      = setLast s.messages
          { role := "assistant".toList, answer := connectionErrorText,
            streaming := false, filesAnalyzed := none, fileCount := none } := rfl
  refine ⟨?_, rfl, ?_, ?_, ?_⟩
  · rw [hmsg]
    show _ = setLast s.messages
      { role := "assistant".toList, answer := errorText (.jstr connectionErrorText),
        streaming := false, filesAnalyzed := none, fileCount := none }
    rw [hrw]
  · rw [hmsg, setLast_length]
  · rw [hmsg, setLast_getLast _ _ h]; rfl
  · rw [hmsg, setLast_getLast _ _ h]; rfl

/-- Witness for C9 as amended, at the initial controller state. -/
theorem c9_witness :
    (initState "q".toList).messages ≠ []
    ∧ (catchHandler (initState "q".toList)).messages
        = (applyError (.jstr connectionErrorText) (initState "q".toList)).messages :=
  ⟨by decide, (c9_amended (initState "q".toList) (by decide)).1⟩

theorem splitNl_line_cons (l t : Str) (h : '\n' ∉ l) :
    splitNl (l ++ '\n' :: t) = l :: splitNl t := by
  induction l with
  | nil => simp [splitNl]
  | cons c cs ih =>
    have hc : c ≠ '\n' := fun he => h (he ▸ List.mem_cons_self c cs)
    have ih' := ih (fun hm => h (List.mem_cons_of_mem c hm))
    simp only [List.cons_append, splitNl, if_neg hc, List.append_eq]
    rw [ih']

theorem splitNl_ne_nil (cs : Str) : splitNl cs ≠ [] := by
  induction cs with
  | nil => simp [splitNl]
  | cons c cs ih =>
    by_cases hc : c = '\n'
    · simp [splitNl, hc]
    · cases h : splitNl cs with
      | nil => exact absurd h ih
      | cons l ls => simp [splitNl, hc, h]

theorem splitNl_mem_no_nl (cs : Str) : ∀ l ∈ splitNl cs, '\n' ∉ l := by
  induction cs with
  | nil =>
    intro l hl
    simp [splitNl] at hl
    simp [hl]
  | cons c cs ih =>
    intro l hl
    by_cases hc : c = '\n'
    · simp [splitNl, hc] at hl
      rcases hl with hl | hl
      · simp [hl]
      · exact ih l hl
    · cases h : splitNl cs with
      | nil => exact absurd h (splitNl_ne_nil cs)
      | cons m ls =>
        simp [splitNl, hc, h] at hl
        rcases hl with hl | hl
        · subst hl
          intro hmem
          rcases List.mem_cons.mp hmem with he | hm
          · exact hc he.symm
          · exact ih m (h ▸ List.mem_cons_self m ls) hm
        · exact ih l (h ▸ List.mem_cons_of_mem m hl)

theorem splitNl_joinNl (L : List Str) (hne : L ≠ []) (h : ∀ l ∈ L, '\n' ∉ l) :
    splitNl (joinNl L ++ ['\n']) = L ++ [[]] := by
  induction L with
  | nil => exact absurd rfl hne
  | cons x r ih =>
    cases r with
    | nil =>
      show splitNl (x ++ '\n' :: []) = [x, []]
      rw [splitNl_line_cons x [] (h x (List.mem_cons_self x []))]
      rfl
    | cons y r' =>
      show splitNl ((x ++ '\n' :: joinNl (y :: r')) ++ ['\n']) = x :: (y :: r') ++ [[]]
      rw [List.append_assoc, List.cons_append,
          splitNl_line_cons x _ (h x (List.mem_cons_self x _)),
          ih (by simp) (fun l hl => h l (List.mem_cons_of_mem x hl))]
      simp

theorem statusMsgOf_mkStatus (ph m : Str) : statusMsgOf (mkStatus ph m) = m := by
  show (if (JValue.jstr m).truthy = true then (JValue.jstr m).display else []) = m
  by_cases hm : m = []
  · subst hm; rfl
  · simp [JValue.truthy, JValue.display, hm]

/-- Claim C8: Status events applied to the in-progress message behave
per phase: `chunking` and `processing` replace the displayed text with a
fresh banner; `chunk` appends a progress line when none is present and
otherwise replaces the marker-identified progress line while preserving the
other banner lines; `combining`, `finalizing` and `error` append a banner
line; and in every case `streaming` remains `true`. -/
theorem c8_status_phases (s : StreamState) (x : Message) (m : Str)
    (hx : s.messages.getLast? = some x) (hnl : '\n' ∉ m) :
    ((applyStatus (mkStatus "chunking".toList m) s).messages.getLast?
        = some { x with answer := "📄 ".toList ++ m ++ ['\n'], streaming := true })
    ∧ ((applyStatus (mkStatus "processing".toList m) s).messages.getLast?
        = some { x with
            answer := "📄 Document is large. Processing in chunks...\n🔄 ".toList
              ++ m ++ ['\n'],
            streaming := true })
    ∧ (containsSub x.answer chunkMarker = false →
        (applyStatus (mkStatus "chunk".toList m) s).messages.getLast?
          = some { x with
              answer := x.answer ++ ("📝 ".toList ++ m) ++ ['\n'],
              streaming := true })
    ∧ (containsSub x.answer chunkMarker = true →
        ∃ y, (applyStatus (mkStatus "chunk".toList m) s).messages.getLast? = some y
          ∧ y.streaming = true
          ∧ splitNl y.answer
              = (splitNl x.answer).filter (fun l => !(containsSub l chunkMarker))
                  ++ ["📝 ".toList ++ m, []])
    ∧ ((applyStatus (mkStatus "combining".toList m) s).messages.getLast?
        = some { x with
            answer := x.answer ++ "🔗 ".toList ++ m ++ ['\n'],
            streaming := true })
    ∧ ((applyStatus (mkStatus "finalizing".toList m) s).messages.getLast?
        = some { x with
            answer := x.answer ++ "✨ ".toList ++ m ++ ['\n'],
            streaming := true })
    ∧ ((applyStatus (mkStatus "error".toList m) s).messages.getLast?
        = some { x with
            answer := x.answer ++ "⚠️ ".toList ++ m ++ ['\n'],
            streaming := true }) := by
  refine ⟨?_, ?_, ?_, ?_, ?_, ?_, ?_⟩
  · show (updateLast s.messages _).getLast? = _
    rw [updateLast_getLast s.messages _ x hx]
    simp only [statusMsgOf_mkStatus]
    rfl
  · show (updateLast s.messages _).getLast? = _
    rw [updateLast_getLast s.messages _ x hx]
    simp only [statusMsgOf_mkStatus]
    rfl
  · intro hct
    show (updateLast s.messages _).getLast? = _
    rw [updateLast_getLast s.messages _ x hx]
    simp only [statusMsgOf_mkStatus, hct]
    rfl
  · intro hct
    refine ⟨{ x with
        answer := joinNl ((splitNl x.answer).filter (fun l => !(containsSub l chunkMarker))
            ++ ["📝 ".toList ++ m]) ++ ['\n'],
        streaming := true }, ?_, rfl, ?_⟩
    · show (updateLast s.messages _).getLast? = _
      rw [updateLast_getLast s.messages _ x hx]
      simp only [statusMsgOf_mkStatus, hct]
      rfl
    · show splitNl (joinNl _ ++ ['\n']) = _
      rw [splitNl_joinNl]
      · simp
      · simp
      · intro l hl
        rcases List.mem_append.mp hl with hl | hl
        · exact splitNl_mem_no_nl x.answer l (List.mem_of_mem_filter hl)
        · simp at hl
          subst hl
          intro hmem
          rcases List.mem_cons.mp hmem with he | hmem
          · exact absurd he (by decide)
          rcases List.mem_cons.mp hmem with he | hmem
          · exact absurd he (by decide)
          exact hnl hmem
  · show (updateLast s.messages _).getLast? = _
    rw [updateLast_getLast s.messages _ x hx]
    simp only [statusMsgOf_mkStatus]
    rfl
  · show (updateLast s.messages _).getLast? = _
    rw [updateLast_getLast s.messages _ x hx]
    simp only [statusMsgOf_mkStatus]
    rfl
  · show (updateLast s.messages _).getLast? = _
    rw [updateLast_getLast s.messages _ x hx]
    simp only [statusMsgOf_mkStatus]
    rfl

/-- Witness for C8 at the placeholder and a concrete status message. -/
theorem c8_witness :
    (initState "q".toList).messages.getLast? = some placeholderMsg
    ∧ '\n' ∉ "Splitting document".toList
    ∧ (applyStatus (mkStatus "chunking".toList "Splitting document".toList)
          (initState "q".toList)).messages.getLast?
        = some { placeholderMsg with
            answer := "📄 ".toList ++ "Splitting document".toList ++ ['\n'],
            streaming := true } :=
  ⟨by decide, by decide,
   (c8_status_phases (initState "q".toList) placeholderMsg
     "Splitting document".toList (by decide) (by decide)).1⟩

/-- An event line that classifies as an `Error` event in the `part_002`
loop: it carries the marker, its payload is neither empty nor the sentinel,
it parses, and its `error` field is truthy. -/
def lineIsError (l : Str) : Bool :=
  leadsWith l dataMarker
    && !(decide (payloadOf l = [] ∨ payloadOf l = doneSentinel))
    && (match jsonParse (payloadOf l) with
        | some p => fieldTruthy p "error".toList
        | none => false)

theorem processLines_error_stop (l : Str) (rest : List Str) (s : StreamState)
    (hl : lineIsError l = true) :
    processLines (l :: rest) s = processLines [l] s := by
  have h1 : leadsWith l dataMarker = true :=
    ((Bool.and_eq_true _ _).mp ((Bool.and_eq_true _ _).mp hl).1).1
  have h2 : ¬(payloadOf l = [] ∨ payloadOf l = doneSentinel) := by
    have := ((Bool.and_eq_true _ _).mp ((Bool.and_eq_true _ _).mp hl).1).2
    simpa using this
  have h3 : (match jsonParse (payloadOf l) with
      | some p => fieldTruthy p "error".toList
      | none => false) = true := ((Bool.and_eq_true _ _).mp hl).2
  cases hj : jsonParse (payloadOf l) with
  | none => rw [hj] at h3; exact absurd h3 (by simp)
  | some p =>
    have h3' : fieldTruthy p "error".toList = true := by rw [hj] at h3; exact h3
    have key : ∀ rest' : List Str, processLines (l :: rest') s
        = applyError ((p.getField "error".toList).getD .jnull) s := by
      intro rest'
      simp only [processLines]
      rw [if_neg (show ¬ ¬ leadsWith l dataMarker = true by simp [h1])]
      rw [if_neg h2]
      simp only [hj]
      rw [if_pos h3']
    rw [key rest, key []]

/-- Counterexample to Claim C2: after an `Error` event has terminated the
message (text `boom`, `streaming = false`), a `Token` event arriving in a
later read chunk still mutates it — the `break` exits only the inner line
loop — so the text becomes `boomhi` and `streaming` flips back to `true`. -/
theorem c2_counterexample :
    ((processChunks ["data: \x7b\"error\":\"boom\"\x7d\n".toList]
        (initState "q".toList)).messages.getLast?).map Message.answer
      = some "boom".toList
    ∧ ((processChunks ["data: \x7b\"error\":\"boom\"\x7d\n".toList]
        (initState "q".toList)).messages.getLast?).map Message.streaming
      = some false
    ∧ ((processChunks ["data: \x7b\"error\":\"boom\"\x7d\n".toList,
          "data: \x7b\"token\":\"hi\"\x7d\n".toList]
        (initState "q".toList)).messages.getLast?).map Message.answer
      = some "boomhi".toList
    ∧ ((processChunks ["data: \x7b\"error\":\"boom\"\x7d\n".toList,
          "data: \x7b\"token\":\"hi\"\x7d\n".toList]
        (initState "q".toList)).messages.getLast?).map Message.streaming
      = some true :=
  ⟨rfl, rfl, rfl, rfl⟩

/-- Claim C2 as amended: termination is idempotent only in restricted
forms — after an `Error` event the remaining lines of the same read chunk
are skipped, a subsequent `Done` line leaves the conversation unchanged,
and re-applying the same `Final` event is idempotent; but an event arriving
in a later chunk after an `Error`, or any `Token`/`Status` event after a
`Final`, does mutate the message (see the counterexample). -/
theorem c2_amended (l : Str) (rest : List Str) (s : StreamState)
    (hl : lineIsError l = true) :
    processLines (l :: rest) s = processLines [l] s
    ∧ (∀ s' : StreamState, (processLines ["data: [DONE]".toList] s').messages = s'.messages)
    ∧ (∀ (fin : JValue) (s' : StreamState),
        applyFinal fin (applyFinal fin s') = applyFinal fin s') := by
  refine ⟨processLines_error_stop l rest s hl, ?_, ?_⟩
  · intro s'
    show (processLines [] (if s'.hasError then s' else { s' with loading := false })).messages
        = s'.messages
    cases h : s'.hasError <;> simp [processLines]
  · intro fin s'
    have hnil : ∀ (msgs : List Message) (m : Message), msgs.getLast? = none →
        setLast msgs m = msgs := by
      intro msgs m hm
      unfold setLast
      rw [hm]
    unfold applyFinal
    cases h : s'.messages.getLast? with
    | none =>
      simp only [h, hnil s'.messages _ h]
    | some x =>
      have hne : s'.messages ≠ [] := by
        intro he; rw [he] at h; simp at h
      have hsl : ∀ m : Message, setLast s'.messages m = s'.messages.dropLast ++ [m] := by
        intro m
        unfold setLast
        rw [h]
      have hlast2 : (s'.messages.dropLast
          ++ [{ x with answer := finAnswer fin,
                       filesAnalyzed := some (finFiles fin),
                       fileCount := some (finCount fin), streaming := false }]).getLast?
          = some { x with answer := finAnswer fin,
                          filesAnalyzed := some (finFiles fin),
                          fileCount := some (finCount fin), streaming := false } := by
        simp [List.getLast?_concat]
      have hdl : (s'.messages.dropLast
          ++ [{ x with answer := finAnswer fin,
                       filesAnalyzed := some (finFiles fin),
                       fileCount := some (finCount fin), streaming := false }]).dropLast
          = s'.messages.dropLast := List.dropLast_concat ..
      simp only [hsl, hlast2, h]
      congr 1
      unfold setLast
      rw [hlast2, hdl]

/-- Witness for C2 as amended, at a concrete error line. -/
theorem c2_witness :
    lineIsError "data: \x7b\"error\":\"boom\"\x7d".toList = true
    ∧ processLines ["data: \x7b\"error\":\"boom\"\x7d".toList, "data: \x7b\"token\":\"hi\"\x7d".toList]
        (initState "q".toList)
      = processLines ["data: \x7b\"error\":\"boom\"\x7d".toList] (initState "q".toList) :=
  ⟨by decide,
   (c2_amended "data: \x7b\"error\":\"boom\"\x7d".toList ["data: \x7b\"token\":\"hi\"\x7d".toList]
     (initState "q".toList) (by decide)).1⟩

/-- Initial conversation of the original variant after submit
(`App.original.jsx` lines 23-33, trace fields empty). -/
def origInit : OrigState :=
  { messages := [{ role := "user".toList, answer := "q".toList, plan := [],
                   context := [], streaming := false },
                 { role := "assistant".toList, answer := [], plan := [],
                   context := [], streaming := true }],
    loading := true }

/-- Counterexample to Claim C4: in the original variant
(`App.original.jsx`), the line `data: not-json` is not silently discarded —
`JSON.parse` throws, the stream loop aborts, the following
`data: {"token":"hi"}` line is never processed, and the outer catch
replaces the message with the connectivity text instead of `hi`. -/
theorem c4_counterexample :
    ((runOrig ["data: not-json\ndata: \x7b\"token\":\"hi\"\x7d\n".toList]
        origInit).messages.getLast?).map OrigMessage.answer
      = some "Error connecting to backend.".toList
    ∧ ((runOrig ["data: not-json\ndata: \x7b\"token\":\"hi\"\x7d\n".toList]
        origInit).messages.getLast?).map OrigMessage.answer
      ≠ some "hi".toList
    ∧ (runOrig ["data: not-json\ndata: \x7b\"token\":\"hi\"\x7d\n".toList]
        origInit).loading = false := by
  refine ⟨rfl, by decide, rfl⟩

/-- Claim C4 as amended: in the enhanced variants (`part_000`, `part_002`)
an event line whose payload fails to parse is silently discarded — the
state is untouched and processing continues with the next line — and the
stream `data: not-json` then `data: {"token":"hi"}` yields final text `hi`;
in the original variant (`App.original.jsx`) the unguarded `JSON.parse`
instead aborts the stream (see the counterexample). -/
theorem c4_amended (s : StreamState) (b : BasicState) (rest : List Str) (l : Str)
    (h1 : leadsWith l dataMarker = true)
    (h2 : ¬(payloadOf l = [] ∨ payloadOf l = doneSentinel))
    (h3 : jsonParse (payloadOf l) = none) :
    processLines (l :: rest) s = processLines rest s
    ∧ processLinesBasic (l :: rest) b = processLinesBasic rest b
    ∧ ((processChunks ["data: not-json\ndata: \x7b\"token\":\"hi\"\x7d\n".toList]
          (initState "q".toList)).messages.getLast?).map Message.answer
        = some "hi".toList := by
  refine ⟨?_, ?_, rfl⟩
  · simp only [processLines]
    rw [if_neg (show ¬ ¬ leadsWith l dataMarker = true by simp [h1])]
    rw [if_neg h2]
    simp only [h3]
  · simp only [processLinesBasic]
    rw [if_neg (show ¬ ¬ leadsWith l dataMarker = true by simp [h1])]
    rw [if_neg h2]
    simp only [h3]

/-- Witness for C4 as amended, at the concrete line `data: not-json`. -/
theorem c4_witness :
    leadsWith "data: not-json".toList dataMarker = true
    ∧ ¬(payloadOf "data: not-json".toList = []
          ∨ payloadOf "data: not-json".toList = doneSentinel)
    ∧ jsonParse (payloadOf "data: not-json".toList) = none
    ∧ processLines ["data: not-json".toList, "data: \x7b\"token\":\"hi\"\x7d".toList]
        (initState "q".toList)
      = processLines ["data: \x7b\"token\":\"hi\"\x7d".toList] (initState "q".toList) :=
  ⟨by decide, by decide, by rfl,
   (c4_amended (initState "q".toList)
     { messages := (initState "q".toList).messages, loading := true }
     ["data: \x7b\"token\":\"hi\"\x7d".toList] "data: not-json".toList
     (by decide) (by decide) (by rfl)).1⟩

theorem leadsWith_iff (l pre : Str) : leadsWith l pre = true ↔ pre <+: l := by
  induction pre generalizing l with
  | nil => simp [leadsWith]
  | cons d ds ih =>
    cases l with
    | nil => simp [leadsWith]
    | cons c cs =>
      simp only [leadsWith, Bool.and_eq_true, decide_eq_true_eq,
        List.cons_prefix_cons, ih]
      constructor
      · rintro ⟨h1, h2⟩; exact ⟨h1.symm, h2⟩
      · rintro ⟨h1, h2⟩; exact ⟨h1.symm, h2⟩

theorem containsSub_iff (hay needle : Str) :
    containsSub hay needle = true ↔ needle <:+: hay := by
  induction hay with
  | nil =>
    cases needle with
    | nil => simp [containsSub, leadsWith]
    | cons d ds => simp [containsSub, leadsWith]
  | cons c cs ih =>
    by_cases hp : leadsWith (c :: cs) needle = true
    · simp only [containsSub, hp, if_true, true_iff]
      exact ((leadsWith_iff _ _).mp hp).isInfix
    · simp only [containsSub, hp, if_false, Bool.false_eq_true, ih]
      constructor
      · exact fun h => h.trans (List.suffix_cons c cs).isInfix
      · intro h
        rcases List.infix_cons_iff.mp h with hpre | hinf
        · exact absurd ((leadsWith_iff _ _).mpr hpre) hp
        · exact hinf

theorem containsSub_trans (a b c : Str) (h1 : containsSub a b = true)
    (h2 : containsSub b c = true) : containsSub a c = true := by
  rw [containsSub_iff] at h1 h2 ⊢
  exact h2.trans h1

/-- Initial conversation of the `part_000` variant after submit. -/
def basicInit : BasicState :=
  { messages := (initState "q".toList).messages, loading := true }

/-- Counterexample to Claim C6: in the `part_000` variant (cited by the
claim), an `Error` event with message `boom` — which contains none of the
rate-limit indicator substrings — produces the text `Error: boom`, not the
message passed through verbatim. -/
theorem c6_counterexample :
    ((processLinesBasic ["data: \x7b\"error\":\"boom\"\x7d".toList]
        basicInit).messages.getLast?).map Message.answer
      = some "Error: boom".toList
    ∧ ((processLinesBasic ["data: \x7b\"error\":\"boom\"\x7d".toList]
        basicInit).messages.getLast?).map Message.answer
      ≠ some "boom".toList
    ∧ containsSub "boom".toList "429".toList = false
    ∧ containsSub "boom".toList "Rate limit".toList = false
    ∧ containsSub "boom".toList "rate limit".toList = false := by
  refine ⟨rfl, by decide, rfl, rfl, rfl⟩

/-- Claim C6 as amended: in the enhanced multi-file variant (`part_002`),
an `Error` event with string message `m` replaces the in-progress message
by an assistant message whose text is `m` verbatim when `m` carries no
rate-limit indicator (`429`, `Rate limit`, `rate limit`) and the fixed
rate-limit banner when it does, with `streaming = false`, the file-analysis
metadata cleared and `loading` cleared; the remaining lines of the current
read chunk are skipped (events of later read chunks are still processed —
see the C2 analysis); in `part_000` the text is prefixed with `Error: `
(see the counterexample). -/
theorem c6_amended (s : StreamState) (m : Str) (l : Str) (rest rest' : List Str)
    (hl : lineIsError l = true)
    (hm1 : containsSub m "429".toList = false)
    (hm2 : containsSub m "Rate limit".toList = false)
    (hm3 : containsSub m "rate limit".toList = false) :
    (applyError (.jstr m) s).messages
        = setLast s.messages
            { role := "assistant".toList, answer := m, streaming := false,
              filesAnalyzed := none, fileCount := none }
    ∧ (applyError (.jstr m) s).loading = false
    ∧ (applyError (.jstr m) s).hasError = true
    ∧ rewriteError "Error code: 429".toList
        = "⚠️ Rate limit reached. The API has exceeded its token limit. Please wait 30-60 seconds and try again.".toList
    ∧ processLines (l :: rest) s = processLines (l :: rest') s := by
  have hver : errorText (.jstr m) = m := by
    show rewriteError m = m
    unfold rewriteError
    rw [if_neg (by
      simp only [Bool.or_eq_true, not_or, Bool.not_eq_true]
      exact ⟨⟨hm1, hm2⟩, hm3⟩)]
    rw [if_neg ?_]
    intro hc
    have : containsSub m "429".toList = true := by
      revert hc
      have h429 : containsSub "Error code: 429".toList "429".toList = true := by decide
      -- containment of the longer indicator implies containment of 429
      intro hc
      -- derive via transitivity of substring containment
      exact containsSub_trans m _ _ hc h429
    rw [hm1] at this
    exact absurd this (by simp)
  refine ⟨?_, rfl, rfl, by decide, ?_⟩
  · show setLast s.messages
        { role := "assistant".toList, answer := errorText (.jstr m), streaming := false,
          filesAnalyzed := none, fileCount := none } = _
    rw [hver]
  · rw [processLines_error_stop l rest s hl, processLines_error_stop l rest' s hl]

/-- Witness for C6 as amended, at message `boom` and a concrete error line. -/
theorem c6_witness :
    lineIsError "data: \x7b\"error\":\"boom\"\x7d".toList = true
    ∧ containsSub "boom".toList "429".toList = false
    ∧ (applyError (.jstr "boom".toList) (initState "q".toList)).messages
        = setLast (initState "q".toList).messages
            { role := "assistant".toList, answer := "boom".toList, streaming := false,
              filesAnalyzed := none, fileCount := none } :=
  ⟨by decide, by decide,
   (c6_amended (initState "q".toList) "boom".toList
     "data: \x7b\"error\":\"boom\"\x7d".toList [] [] (by decide) (by decide) (by decide)
     (by decide)).1⟩

/-- Reassemble a group of lines into the read chunk consisting of those
lines, each terminated by a newline. -/
def mkChunk (ls : List Str) : Str := ls.foldr (fun l acc => l ++ '\n' :: acc) []

theorem splitNl_mkChunk (ls : List Str) (h : ∀ l ∈ ls, '\n' ∉ l) :
    splitNl (mkChunk ls) = ls ++ [[]] := by
  induction ls with
  | nil => rfl
  | cons l ls ih =>
    show splitNl (l ++ '\n' :: mkChunk ls) = _
    rw [splitNl_line_cons l _ (h l (List.mem_cons_self l ls)),
        ih (fun l' hm => h l' (List.mem_cons_of_mem l hm))]
    rfl

theorem processLines_cons_factor (l : Str) (s : StreamState)
    (hl : lineIsError l = false) :
    ∃ s', ∀ rest : List Str, processLines (l :: rest) s = processLines rest s' := by
  by_cases h1 : leadsWith l dataMarker = true
  · by_cases h2 : payloadOf l = [] ∨ payloadOf l = doneSentinel
    · refine ⟨if s.hasError then s else { s with loading := false }, fun rest => ?_⟩
      simp only [processLines]
      rw [if_neg (by simp [h1]), if_pos h2]
    · cases hj : jsonParse (payloadOf l) with
      | none =>
        refine ⟨s, fun rest => ?_⟩
        simp only [processLines]
        rw [if_neg (by simp [h1]), if_neg h2]
        simp only [hj]
      | some p =>
        have herr : fieldTruthy p "error".toList = false := by
          unfold lineIsError at hl
          rw [hj] at hl
          simpa [h1, h2] using hl
        refine ⟨(let s1 := if fieldTruthy p "status".toList then applyStatus p s else s
                 let s2 := if fieldTruthy p "token".toList then
                     applyToken ((p.getField "token".toList).getD .jnull) s1 else s1
                 if fieldTruthy p "final".toList then
                     applyFinal ((p.getField "final".toList).getD .jnull) s2 else s2),
                fun rest => ?_⟩
        simp only [processLines]
        rw [if_neg (by simp [h1]), if_neg h2]
        simp only [hj]
        rw [if_neg (by simpa using herr)]
  · refine ⟨s, fun rest => ?_⟩
    simp only [processLines]
    rw [if_pos h1]

theorem processLines_append (ls1 ls2 : List Str) (s : StreamState)
    (h : ∀ l ∈ ls1, lineIsError l = false) :
    processLines (ls1 ++ ls2) s = processLines ls2 (processLines ls1 s) := by
  induction ls1 generalizing s with
  | nil => rfl
  | cons l ls ih =>
    have hl := h l (List.mem_cons_self l ls)
    have hls : ∀ l' ∈ ls, lineIsError l' = false :=
      fun l' hm => h l' (List.mem_cons_of_mem l hm)
    obtain ⟨s', hs'⟩ := processLines_cons_factor l s hl
    calc processLines ((l :: ls) ++ ls2) s
        = processLines (l :: (ls ++ ls2)) s := rfl
      _ = processLines (ls ++ ls2) s' := hs' _
      _ = processLines ls2 (processLines ls s') := ih s' hls
      _ = processLines ls2 (processLines (l :: ls) s) := by rw [hs' ls]

theorem processChunks_groups (gss : List (List Str)) (s : StreamState)
    (hnl : ∀ g ∈ gss, ∀ l ∈ g, '\n' ∉ l)
    (herr : ∀ g ∈ gss, ∀ l ∈ g, lineIsError l = false) :
    processChunks (gss.map mkChunk) s
      = processChunks [] (processLines gss.flatten s) := by
  induction gss generalizing s with
  | nil => rfl
  | cons g gss ih =>
    have hg_nl := hnl g (List.mem_cons_self g gss)
    have hg_err := herr g (List.mem_cons_self g gss)
    show processChunks (gss.map mkChunk) (processLines (splitNl (mkChunk g)) s) = _
    rw [splitNl_mkChunk g hg_nl, processLines_append g [[]] s hg_err,
        show ∀ s' : StreamState, processLines [[]] s' = s' from fun s' => rfl,
        ih (processLines g s) (fun g' hm => hnl g' (List.mem_cons_of_mem g hm))
          (fun g' hm => herr g' (List.mem_cons_of_mem g hm)),
        show (g :: gss).flatten = g ++ gss.flatten from rfl,
        processLines_append g gss.flatten s hg_err]

/-- Claim C1 as amended: the result of the `part_002` stream loop is
invariant across read chunkings whose boundaries fall only at line
boundaries, for streams in which no line classifies as an `Error` event
(the error `break` makes same-chunk and cross-chunk suffixes differ): any
two groupings of the same terminated line sequence into chunks produce the
same final state.  A chunk boundary inside a line is not repaired — the
loop keeps no carry-over of a trailing partial line, each fragment is
processed as its own line, and the event is typically lost (see the
counterexample). -/
theorem c1_amended (gss1 gss2 : List (List Str)) (s : StreamState)
    (heq : gss1.flatten = gss2.flatten)
    (hnl : ∀ l ∈ gss1.flatten, '\n' ∉ l)
    (herr : ∀ l ∈ gss1.flatten, lineIsError l = false) :
    processChunks (gss1.map mkChunk) s = processChunks (gss2.map mkChunk) s := by
  rw [processChunks_groups gss1 s
      (fun g hg l hl => hnl l (List.mem_flatten.mpr ⟨g, hg, hl⟩))
      (fun g hg l hl => herr l (List.mem_flatten.mpr ⟨g, hg, hl⟩)),
    processChunks_groups gss2 s
      (fun g hg l hl => hnl l (heq ▸ List.mem_flatten.mpr ⟨g, hg, hl⟩))
      (fun g hg l hl => herr l (heq ▸ List.mem_flatten.mpr ⟨g, hg, hl⟩)),
    heq]

/-- Witness for C1 as amended: a two-line token stream, delivered as two
single-line chunks versus one two-line chunk. -/
theorem c1_witness :
    ([["data: \x7b\"token\":\"a\"\x7d".toList], ["data: \x7b\"token\":\"b\"\x7d".toList]].flatten
        = [["data: \x7b\"token\":\"a\"\x7d".toList, "data: \x7b\"token\":\"b\"\x7d".toList]].flatten)
    ∧ (∀ l ∈ [["data: \x7b\"token\":\"a\"\x7d".toList],
          ["data: \x7b\"token\":\"b\"\x7d".toList]].flatten, '\n' ∉ l)
    ∧ (∀ l ∈ [["data: \x7b\"token\":\"a\"\x7d".toList],
          ["data: \x7b\"token\":\"b\"\x7d".toList]].flatten, lineIsError l = false)
    ∧ processChunks ([["data: \x7b\"token\":\"a\"\x7d".toList],
          ["data: \x7b\"token\":\"b\"\x7d".toList]].map mkChunk) (initState "q".toList)
      = processChunks ([["data: \x7b\"token\":\"a\"\x7d".toList,
          "data: \x7b\"token\":\"b\"\x7d".toList]].map mkChunk) (initState "q".toList) :=
  ⟨by decide, by decide, by decide,
   c1_amended [["data: \x7b\"token\":\"a\"\x7d".toList], ["data: \x7b\"token\":\"b\"\x7d".toList]]
     [["data: \x7b\"token\":\"a\"\x7d".toList, "data: \x7b\"token\":\"b\"\x7d".toList]]
     (initState "q".toList) (by decide) (by decide) (by decide)⟩

/-- Counterexample to Claim C1: the same bytes `data: {"token":"hi"}\n`
delivered whole produce final text `hi`, but delivered split in the middle
of the line produce final text `""` — the first fragment fails to parse and
is discarded, the second does not carry the `data:` marker — so the final
message state is not chunking-invariant. -/
theorem c1_counterexample :
    "data: \x7b\"to".toList ++ "ken\":\"hi\"\x7d\n".toList = "data: \x7b\"token\":\"hi\"\x7d\n".toList
    ∧ ((processChunks ["data: \x7b\"token\":\"hi\"\x7d\n".toList]
          (initState "q".toList)).messages.getLast?).map Message.answer
        = some "hi".toList
    ∧ ((processChunks ["data: \x7b\"to".toList, "ken\":\"hi\"\x7d\n".toList]
          (initState "q".toList)).messages.getLast?).map Message.answer
        = some []
    ∧ processChunks ["data: \x7b\"token\":\"hi\"\x7d\n".toList] (initState "q".toList)
        ≠ processChunks ["data: \x7b\"to".toList, "ken\":\"hi\"\x7d\n".toList]
            (initState "q".toList) := by
  refine ⟨rfl, rfl, rfl, by decide⟩
